import Mathlib

/-!
Verification development for the PaperPilot repository.

The repository ships a five-stage paper-writing pipeline.  Its stage
identifiers and registry order are fixed by
`paper-assistant/references/integration-guide.md` (the `stages_order`
list inside `rollback_to_stage`) and by the schema in
`paper-assistant/references/context-management.md`.  The only
executable code in the repository are the skill installers
(`scripts/install-codex.js`, `scripts/install-opencode.js`); the
coordinator scripts (`scripts/context-manager.py`,
`scripts/state-checker.py`) are declared by the documentation but are
not part of the repository, so the Coordinator operations are
modelled from the specification where noted.
-/

/-- Stage status values, from the schema in `context-management.md`
(`pending|in_progress|completed`) extended with `failed` as used by the
error-handling section of `integration-guide.md`
(`context["stages"]["experiment"]["status"] = "failed"`). -/
inductive Status where
  | pending
  | in_progress
  | completed
  | failed
deriving DecidableEq

/-- Stage identifiers, from the `stages_order` list in
`integration-guide.md` and the schema in `context-management.md`. -/
inductive StageId where
  | literature_review
  | hypothesis
  | code
  | experiment
  | writing
deriving DecidableEq

/-- Registry order of the stages: the list
`["literature_review", "hypothesis", "code", "experiment", "writing"]`
from `rollback_to_stage` in `integration-guide.md`. -/
def stages_order : List StageId :=
  [.literature_review, .hypothesis, .code, .experiment, .writing]

/-- Position of a stage in `stages_order`
(`stages_order.index(target_stage)` in the source). -/
def stageIdx : StageId → Nat
  | .literature_review => 0
  | .hypothesis => 1
  | .code => 2
  | .experiment => 3
  | .writing => 4

/-- Successor stage in registry order (`None` at the final stage). -/
def nextStage : StageId → Option StageId
  | .literature_review => some .hypothesis
  | .hypothesis => some .code
  | .code => some .experiment
  | .experiment => some .writing
  | .writing => none

/-- Stage outputs are free-form field-name/value documents
(`.paper_context.json` stores JSON objects per stage); modelled as
association lists from field name to value. -/
def Output : Type := List (String × String)
deriving DecidableEq

/-- Association-list lookup keyed by decidable equality, used for
stage maps, stores and directory listings. -/
def alookup {κ α : Type} [DecidableEq κ] : List (κ × α) → κ → Option α
  | [], _ => none
  | (k, v) :: rest, q => if k = q then some v else alookup rest q

/-- Association-list update: replaces the first binding of the key, or
appends a new binding when the key is absent. -/
def aset {κ α : Type} [DecidableEq κ] : List (κ × α) → κ → α → List (κ × α)
  | [], k, v => [(k, v)]
  | (k', v') :: rest, k, v =>
      if k' = k then (k, v) :: rest else (k', v') :: aset rest k v

/-- Per-stage record as manipulated by the documentation's own
`rollback_to_stage` code: a status plus the stage's output fields and
optional error message (`context["stages"][stage]["status"]`,
`...["error"]`). -/
structure DocStageRec where
  status : Status
  output : Output
  error : Option String
deriving DecidableEq

/-- Context document as manipulated by `rollback_to_stage` in
`integration-guide.md`: `current_stage` plus the per-stage records
(the schema fixes the stage keys, so the map is total). -/
structure DocCtx where
  current_stage : StageId
  stages : StageId → DocStageRec

/-- Embedding of `rollback_to_stage(target_stage)` from
`integration-guide.md` lines 188-205: every stage strictly after the
target in `stages_order` has its status set to `pending` (the
`clear_outputs` line is commented out in the source, so outputs are
kept), `current_stage` is set to the target, and the target stage's
status is set to `in_progress`.  `load_context`/`save_context` are
modelled by taking and returning the context value. -/
def rollback_to_stage (target_stage : StageId) (ctx : DocCtx) : DocCtx :=
  { current_stage := target_stage
    stages := fun s =>
      if stageIdx target_stage < stageIdx s then
        { ctx.stages s with status := .pending }
      else if s = target_stage then
        { ctx.stages s with status := .in_progress }
      else
        ctx.stages s }

/-- Top-level fields of the persisted `.paper_context.json` record as
documented by the schema in `context-management.md` lines 9-55. -/
def contextSchemaTopLevelFields : List String :=
  ["project", "current_stage", "stages", "user_preferences"]

/-- Top-level fields of the `.paper_context.json` example shown in the
paper-assistant skill documentation. -/
def paperContextExampleFields : List String :=
  ["project_name", "current_stage", "stages", "user_preferences"]

/-- Required output fields per stage, from the Validation Criteria
table in `integration-guide.md` lines 211-217 (field-valued outputs
only; prose criteria such as "tests passing" are not context fields). -/
def requiredFields : StageId → List String
  | .literature_review => ["research_gap", "key_papers", "summary"]
  | .hypothesis => ["hypotheses", "experiment_designs", "feasibility"]
  | .code => ["repo_url", "config"]
  | .experiment => ["results", "tables", "figures", "analysis"]
  | .writing => ["sections"]

/-- Result of validating a stage output: pass/fail plus the specific
missing fields, as in spec section 4.3. -/
structure ValidationResult where
  ok : Bool
  missing : List String
deriving DecidableEq

/-- Modelled from the spec: `state-checker.py` (the StageValidator) is
declared by the documentation but absent from the repository.  Spec
section 4.3: checks that the output contains every required field with
a non-empty value and reports the missing fields. -/
def validate (stageId : StageId) (output : Output) : ValidationResult :=
  let missing := (requiredFields stageId).filter fun f =>
    match alookup output f with
    | some v => v = ""
    | none => true
  { ok := missing.isEmpty, missing := missing }

/-- Per-stage record of the Coordinator model: status, recorded
output, missing-field list written on validation failure, and the
error message present when the stage failed (spec section 3). -/
structure StageRecord where
  status : Status
  output : Output
  missing : List String
  error : Option String
deriving DecidableEq

/-- Fresh record for a stage that has not run. -/
def emptyRecord : StageRecord :=
  { status := .pending, output := [], missing := [], error := none }

/-- Record for a stage attested as completed outside the tracked
workflow: completed with empty output (spec sections 4.4 and 9). -/
def assumedRecord : StageRecord :=
  { status := .completed, output := [], missing := [], error := none }

/-- Pipeline record of the Coordinator model (spec section 3): id and
name, the current stage pointer, the per-stage records keyed by stage
identifier, and opaque preferences. -/
structure Pipeline where
  id : String
  name : String
  currentStage : StageId
  stages : List (StageId × StageRecord)
  preferences : List (String × String)
deriving DecidableEq

/-- Pointwise update of every stage record, keeping the key set. -/
def mapStages (f : StageId → StageRecord → StageRecord)
    (l : List (StageId × StageRecord)) : List (StageId × StageRecord) :=
  l.map fun e => (e.1, f e.1 e.2)

/-- Modelled from the spec: `context-manager.py init` is declared by
the documentation but absent from the repository.  Spec section 3
lifecycle: a Pipeline is created with every registry stage `pending`
and `currentStage` at the first stage. -/
def initPipeline (id name : String) (prefs : List (String × String)) : Pipeline :=
  { id := id
    name := name
    currentStage := .literature_review
    stages := stages_order.map fun s => (s, emptyRecord)
    preferences := prefs }

/-- Coordinator error results (spec sections 6 and 7);
`notFound` covers a malformed pipeline whose current stage has no
record, `invalidTransition` an ordering violation. -/
inductive CoordError where
  | notFound
  | invalidTransition
deriving DecidableEq

/-- Modelled from the spec: the Coordinator's `advance` operation
(`context-manager.py` is absent from the repository).  Spec section
4.4: applicable only when the current stage is `pending` or
`in_progress` (otherwise `InvalidTransition`); validates the
collaborator output; on pass records it as `completed` and moves
`currentStage` to the next registry stage (staying at the final
stage); on fail records the output and missing fields as `failed`
without moving `currentStage`; returns the ValidationResult. -/
def advance (p : Pipeline) (out : Output) :
    Except CoordError (Pipeline × ValidationResult) :=
  match alookup p.stages p.currentStage with
  | none => .error .notFound
  | some r =>
    if r.status = .pending ∨ r.status = .in_progress then
      if (validate p.currentStage out).ok then
        .ok ({ p with
                stages := mapStages
                  (fun s old => if s = p.currentStage then
                      { status := .completed, output := out,
                        missing := [], error := none }
                    else old) p.stages
                currentStage := (nextStage p.currentStage).getD p.currentStage },
              validate p.currentStage out)
      else
        .ok ({ p with
                stages := mapStages
                  (fun s old => if s = p.currentStage then
                      { status := .failed, output := out,
                        missing := (validate p.currentStage out).missing,
                        error := some "ValidationFailed" }
                    else old) p.stages },
              validate p.currentStage out)
    else
      .error .invalidTransition

/-- Modelled from the spec: the Coordinator's `jumpTo` operation
(`context-manager.py` is absent from the repository; the Context
Initialization recipe in `integration-guide.md` has no such checked
operation).  Spec section 4.4: rejects with `InvalidTransition` when
`assumeCompleted` holds a stage at or after the target or when a stage
before the target is missing from `assumeCompleted`; otherwise marks
the assumed earlier stages `completed` with empty output, sets the
target and all later stages to `pending`, and moves `currentStage` to
the target. -/
def jumpTo (p : Pipeline) (target : StageId) (assumeCompleted : List StageId) :
    Except CoordError Pipeline :=
  if ∃ s ∈ assumeCompleted, stageIdx target ≤ stageIdx s then
    .error .invalidTransition
  else if ∃ s ∈ stages_order, stageIdx s < stageIdx target ∧ s ∉ assumeCompleted then
    .error .invalidTransition
  else
    .ok { p with
          currentStage := target
          stages := mapStages
            (fun s old =>
              if stageIdx s < stageIdx target then
                if s ∈ assumeCompleted then assumedRecord else old
              else
                { old with status := .pending }) p.stages }

/-- Modelled from the spec: the Coordinator's `rollbackTo` operation
(`context-manager.py` is absent from the repository; the
documentation's own `rollback_to_stage` sketch is embedded separately
above).  Spec section 4.4: rejects with `InvalidTransition` when the
target is after the current stage; otherwise resets the target and
every later stage to `pending` with output and error cleared and sets
`currentStage` to the target. -/
def rollbackTo (p : Pipeline) (target : StageId) : Except CoordError Pipeline :=
  if stageIdx target ≤ stageIdx p.currentStage then
    .ok { p with
          currentStage := target
          stages := mapStages
            (fun s old =>
              if stageIdx target ≤ stageIdx s then emptyRecord else old) p.stages }
  else
    .error .invalidTransition

/-- Pipelines reachable from creation through the Coordinator's
operations (spec sections 4.4 and 8). -/
inductive Reachable : Pipeline → Prop where
  | init (id name : String) (prefs : List (String × String)) :
      Reachable (initPipeline id name prefs)
  | adv {p p' : Pipeline} {out : Output} {vr : ValidationResult} :
      Reachable p → advance p out = .ok (p', vr) → Reachable p'
  | jmp {p p' : Pipeline} {t : StageId} {a : List StageId} :
      Reachable p → jumpTo p t a = .ok p' → Reachable p'
  | rbk {p p' : Pipeline} {t : StageId} :
      Reachable p → rollbackTo p t = .ok p' → Reachable p'

/-- Modelled from the spec: the ContextStore (spec section 4.1); the
persistence code is absent from the repository.  A store keeps one
record per pipeline id. -/
def Store : Type := List (String × Pipeline)

/-- Modelled from the spec: `save(Pipeline)` fully replaces the
persisted record for the pipeline's id (spec section 4.1). -/
def save (p : Pipeline) (st : Store) : Store :=
  aset st p.id p

/-- Store lookup failure (spec section 4.1). -/
inductive StoreError where
  | notFound
deriving DecidableEq

/-- Modelled from the spec: `load(pipelineId) -> Pipeline | NotFound`
(spec section 4.1). -/
def load (pipelineId : String) (st : Store) : Except StoreError Pipeline :=
  match alookup st pipelineId with
  | some p => .ok p
  | none => .error .notFound

/-- Context fixture mirroring the error-handling example of
`integration-guide.md`: three completed stages, a failed experiment
stage carrying output and an error, writing still pending. -/
def demoDocCtx : DocCtx :=
  { current_stage := .experiment
    stages := fun s =>
      match s with
      | .literature_review =>
          { status := .completed, output := [("research_gap", "g1")], error := none }
      | .hypothesis =>
          { status := .completed, output := [("hypotheses", "h1")], error := none }
      | .code =>
          { status := .completed, output := [("repo_url", "r1")], error := none }
      | .experiment =>
          { status := .failed, output := [("results", "raw")],
            error := some "Runtime error" }
      | .writing =>
          { status := .pending, output := [], error := none } }

/-- Freshly created demo pipeline. -/
def demoInit : Pipeline := initPipeline "demo" "demo" []

/-- Demo pipeline whose current stage is already completed. -/
def demoCompletedPipeline : Pipeline :=
  { id := "demo"
    name := "demo"
    currentStage := .literature_review
    stages := stages_order.map fun s => (s, assumedRecord)
    preferences := [] }

/-- Expected result of jumping the fresh demo pipeline to the
hypothesis stage while attesting the literature review. -/
def demoJumped : Pipeline :=
  { demoInit with
    currentStage := .hypothesis
    stages := [(.literature_review, assumedRecord), (.hypothesis, emptyRecord),
               (.code, emptyRecord), (.experiment, emptyRecord),
               (.writing, emptyRecord)] }

/-- Demo pipeline used for the store round trip. -/
def demoStored : Pipeline := initPipeline "p1" "demo" [("language", "en")]

/-- Failure surfaced by the installer model when a filesystem call
would throw in the source (copying a file onto a directory, making a
directory over a file, or reading a file as a directory). -/
inductive FsError where
  | conflict
deriving DecidableEq

/-- File tree: a file with contents, or a directory listing of named
children, mirroring what `fs.readdirSync(src, { withFileTypes: true })`
exposes to `copyDir`. -/
inductive FTree where
  | file (content : String)
  | dir (entries : List (String × FTree))

mutual

/-- Copy of one source entry onto the matching destination entry, as
performed inside the loop of `copyDir` in `scripts/install-codex.js`
lines 79-88 (identical in `scripts/install-opencode.js`): a source
file is written with `fs.copyFileSync` (overwriting a same-named
destination file, erroring on a same-named destination directory); a
source directory is created when absent (`fs.mkdirSync` errors when a
same-named destination file exists) and merged recursively. -/
def copyTree : FTree → Option FTree → Except FsError FTree
  | .file _, some (.dir _) => .error .conflict
  | .file c, some (.file _) => .ok (.file c)
  | .file c, none => .ok (.file c)
  | .dir _, some (.file _) => .error .conflict
  | .dir es, some (.dir ds) =>
    match copyDir es ds with
    | .error e => .error e
    | .ok m => .ok (.dir m)
  | .dir es, none =>
    match copyDir es [] with
    | .error e => .error e
    | .ok m => .ok (.dir m)

/-- Embedding of `copyDir(src, dest)` from `scripts/install-codex.js`
lines 72-89 (identical in `scripts/install-opencode.js`): walks the
source entries in order, copying each onto the destination entry of
the same name; destination entries with no same-named source entry
are left as they are. -/
def copyDir : List (String × FTree) → List (String × FTree) →
    Except FsError (List (String × FTree))
  | [], d => .ok d
  | (n, t) :: rest, d =>
    match copyTree t (alookup d n) with
    | .error e => .error e
    | .ok t2 => copyDir rest (aset d n t2)

end

/-- Check that a key does not occur in a directory listing. -/
def keyFree : String → List (String × FTree) → Bool
  | _, [] => true
  | q, (k, _) :: rest => if k = q then false else keyFree q rest

mutual

/-- Well-formed file tree: every directory listing inside it is
well-formed. -/
def wfT : FTree → Bool
  | .file _ => true
  | .dir es => wfE es

/-- Well-formed directory listings: no duplicate names at any level,
as `fs.readdirSync` guarantees for a real directory. -/
def wfE : List (String × FTree) → Bool
  | [] => true
  | (n, t) :: rest => keyFree n rest && wfT t && wfE rest

end

/-- Path lookup in a directory listing, following child directories. -/
def lookupPath : List (String × FTree) → List String → Option FTree
  | _, [] => none
  | l, n :: rest =>
    match alookup l n with
    | none => none
    | some t =>
      match rest with
      | [] => some t
      | _ :: _ =>
        match t with
        | .file _ => none
        | .dir es => lookupPath es rest

/-- Path lookup relative to a single tree: the empty path is the tree
itself, a non-empty path descends into a directory's listing. -/
def getPath (t : FTree) (p : List String) : Option FTree :=
  match p with
  | [] => some t
  | q :: tail =>
    match t with
    | .file _ => none
    | .dir es => lookupPath es (q :: tail)

/-- The six fixed skill directory names from the `SKILLS` constant of
`scripts/install-codex.js` and `scripts/install-opencode.js`. -/
def SKILLS : List String :=
  ["paper-assistant", "paper-literature-review", "paper-hypothesis",
   "paper-code", "paper-experiment", "paper-writing"]

/-- Loop body of `install()` from the installer scripts: for each
skill name in order, a source directory that exists is copied with
`copyDir` (counting it as installed) and a missing one is skipped
without stopping the loop; a source skill that is a plain file makes
`fs.readdirSync` throw. -/
def installGo (src : List (String × FTree)) :
    List String → List (String × FTree) →
    Except FsError (List (String × FTree) × Nat)
  | [], d => .ok (d, 0)
  | k :: rest, d =>
    match alookup src k with
    | none => installGo src rest d
    | some (.file _) => .error .conflict
    | some (.dir es) =>
      match alookup d k with
      | some (.file _) => .error .conflict
      | some (.dir ds) =>
        match copyDir es ds with
        | .error e => .error e
        | .ok m =>
          match installGo src rest (aset d k (.dir m)) with
          | .error e => .error e
          | .ok (d2, c) => .ok (d2, c + 1)
      | none =>
        match copyDir es [] with
        | .error e => .error e
        | .ok m =>
          match installGo src rest (aset d k (.dir m)) with
          | .error e => .error e
          | .ok (d2, c) => .ok (d2, c + 1)

/-- Embedding of `install()` from `scripts/install-codex.js` lines
40-70 (identical logic in `scripts/install-opencode.js`): the
destination skills directory is created when absent
(`fs.mkdirSync(skillsDir, { recursive: true })`), then each of the six
fixed skills is copied when present at the source and skipped
otherwise; returns the final skills directory listing and the number
of installed skills. -/
def install (src : List (String × FTree))
    (dest : Option (List (String × FTree))) :
    Except FsError (List (String × FTree) × Nat) :=
  installGo src SKILLS (dest.getD [])

/-- Source fixture: a repository checkout where only two of the six
skills exist, next to a non-skill directory. -/
def demoSrc : List (String × FTree) :=
  [("paper-assistant",
      .dir [("SKILL.md", .file "assistant"),
            ("references", .dir [("workflow.md", .file "wf")])]),
   ("paper-writing", .dir [("SKILL.md", .file "writing")]),
   ("scripts", .dir [("install-codex.js", .file "js")])]

/-- Destination fixture: a skills directory holding a user file and a
stale copy of one skill with a private extra file. -/
def demoDest : List (String × FTree) :=
  [("user-notes.md", .file "keep"),
   ("paper-assistant",
      .dir [("local.md", .file "local"), ("SKILL.md", .file "old")])]

/-- Expected skills directory after installing `demoSrc` over
`demoDest`: the user file and the private extra file survive, the
stale skill file is overwritten, and the present skills are copied. -/
def demoInstalled : List (String × FTree) :=
  [("user-notes.md", .file "keep"),
   ("paper-assistant",
      .dir [("local.md", .file "local"), ("SKILL.md", .file "assistant"),
            ("references", .dir [("workflow.md", .file "wf")])]),
   ("paper-writing", .dir [("SKILL.md", .file "writing")])]

theorem alookup_aset_self {κ α : Type} [DecidableEq κ] (l : List (κ × α)) (k : κ) (v : α) :
    alookup (aset l k v) k = some v := by
  induction l with
  | nil => simp [aset, alookup]
  | cons e rest ih =>
    obtain ⟨k', v'⟩ := e
    by_cases hk : k' = k
    · subst hk
      simp [aset, alookup]
    · simp [aset, alookup, hk, ih]

theorem alookup_aset_ne {κ α : Type} [DecidableEq κ] (l : List (κ × α)) (k q : κ) (v : α)
    (hq : q ≠ k) : alookup (aset l k v) q = alookup l q := by
  induction l with
  | nil => simp [aset, alookup, Ne.symm hq]
  | cons e rest ih =>
    obtain ⟨k', v'⟩ := e
    by_cases hk : k' = k
    · subst hk
      simp [aset, alookup, Ne.symm hq]
    · by_cases hq' : k' = q
      · subst hq'
        simp [aset, alookup, hk]
      · simp [aset, alookup, hk, hq', ih]

theorem alookup_mapStages (f : StageId → StageRecord → StageRecord)
    (l : List (StageId × StageRecord)) (k : StageId) :
    alookup (mapStages f l) k = (alookup l k).map (f k) := by
  induction l with
  | nil => simp [mapStages, alookup]
  | cons e rest ih =>
    obtain ⟨k', v'⟩ := e
    by_cases hk : k' = k
    · subst hk
      simp [mapStages, alookup]
    · simpa [mapStages, alookup, hk] using ih

theorem keys_mapStages (f : StageId → StageRecord → StageRecord)
    (l : List (StageId × StageRecord)) :
    (mapStages f l).map Prod.fst = l.map Prod.fst := by
  induction l with
  | nil => rfl
  | cons e rest ih => simp [mapStages]

theorem mem_stages_order (s : StageId) : s ∈ stages_order := by
  cases s <;> simp [stages_order]

theorem keys_advance {p p' : Pipeline} {out : Output} {vr : ValidationResult}
    (h : advance p out = .ok (p', vr)) :
    p'.stages.map Prod.fst = p.stages.map Prod.fst := by
  unfold advance at h
  split at h
  · simp at h
  · split at h
    · split at h
      · simp only [Except.ok.injEq, Prod.mk.injEq] at h
        obtain ⟨h1, _⟩ := h
        subst h1
        simpa using keys_mapStages _ p.stages
      · simp only [Except.ok.injEq, Prod.mk.injEq] at h
        obtain ⟨h1, _⟩ := h
        subst h1
        simpa using keys_mapStages _ p.stages
    · simp at h

theorem keys_jumpTo {p p' : Pipeline} {t : StageId} {a : List StageId}
    (h : jumpTo p t a = .ok p') :
    p'.stages.map Prod.fst = p.stages.map Prod.fst := by
  unfold jumpTo at h
  split at h
  · simp at h
  · split at h
    · simp at h
    · simp only [Except.ok.injEq] at h
      subst h
      simpa using keys_mapStages _ p.stages

theorem keys_rollbackTo {p p' : Pipeline} {t : StageId}
    (h : rollbackTo p t = .ok p') :
    p'.stages.map Prod.fst = p.stages.map Prod.fst := by
  unfold rollbackTo at h
  split at h
  · simp only [Except.ok.injEq] at h
    subst h
    simpa using keys_mapStages _ p.stages
  · simp at h

/-- C1 counterexample: running the repository's `rollback_to_stage`
on the documented failure scenario with target `code` leaves the
target stage `in_progress` rather than `pending` and keeps the later
`experiment` stage's output instead of clearing it, so the claimed
rollback behaviour fails at this concrete input. -/
theorem rollback_claim_counterexample :
    ((rollback_to_stage .code demoDocCtx).stages .code).status ≠ Status.pending ∧
    ((rollback_to_stage .code demoDocCtx).stages .experiment).output ≠ [] := by
  constructor
  · decide
  · decide

/-- C1 (amended): `rollback_to_stage(target)` sets every stage
strictly after the target in registry order to `pending` while
keeping its output and error, sets the target stage's status to
`in_progress` (keeping its output and error), leaves every stage
before the target unchanged, and sets `current_stage` to the
target. -/
theorem rollback_to_stage_behavior (ctx : DocCtx) (t : StageId) :
    (rollback_to_stage t ctx).current_stage = t ∧
    (rollback_to_stage t ctx).stages t =
      { ctx.stages t with status := .in_progress } ∧
    (∀ s, stageIdx t < stageIdx s →
      (rollback_to_stage t ctx).stages s =
        { ctx.stages s with status := .pending }) ∧
    (∀ s, stageIdx s < stageIdx t →
      (rollback_to_stage t ctx).stages s = ctx.stages s) := by
  refine ⟨rfl, ?_, ?_, ?_⟩
  · simp [rollback_to_stage]
  · intro s h
    simp [rollback_to_stage, h]
  · intro s h
    have h1 : ¬ stageIdx t < stageIdx s := by omega
    have h2 : s ≠ t := by
      intro e
      subst e
      omega
    simp [rollback_to_stage, h1, h2]

/-- C1 witness: the amended rollback behaviour evaluated on the
documented failure scenario with target `code`. -/
theorem rollback_to_stage_behavior_witness :
    (rollback_to_stage .code demoDocCtx).current_stage = StageId.code ∧
    (rollback_to_stage .code demoDocCtx).stages .experiment =
      { demoDocCtx.stages .experiment with status := .pending } ∧
    (rollback_to_stage .code demoDocCtx).stages .hypothesis =
      demoDocCtx.stages .hypothesis :=
  ⟨(rollback_to_stage_behavior demoDocCtx .code).1,
   (rollback_to_stage_behavior demoDocCtx .code).2.2.1 .experiment (by decide),
   (rollback_to_stage_behavior demoDocCtx .code).2.2.2 .hypothesis (by decide)⟩

/-- C7: the repository's `rollback_to_stage` is idempotent — rolling
back twice to the same target yields the same context as rolling back
once, for every context and every target stage. -/
theorem rollback_to_stage_idempotent (t : StageId) (ctx : DocCtx) :
    rollback_to_stage t (rollback_to_stage t ctx) = rollback_to_stage t ctx := by
  unfold rollback_to_stage
  congr 1
  funext s
  by_cases h1 : stageIdx t < stageIdx s
  · simp [h1]
  · by_cases h2 : s = t
    · subst h2
      simp [h1]
    · simp [h1, h2]

/-- C9 counterexample: the persisted record layout documented for
`.paper_context.json` (both the schema in `context-management.md` and
the example in the paper-assistant skill documentation) has no
`schemaVersion` field. -/
theorem schemaVersion_counterexample :
    "schemaVersion" ∉ contextSchemaTopLevelFields ∧
    "schemaVersion" ∉ paperContextExampleFields := by
  constructor
  · decide
  · decide

/-- C9 (amended): the persisted `.paper_context.json` record, as
documented, consists of the project metadata, `current_stage`,
`stages` and `user_preferences` fields and carries no `schemaVersion`
field. -/
theorem persisted_schema_fields :
    ("project" ∈ contextSchemaTopLevelFields ∧
     "current_stage" ∈ contextSchemaTopLevelFields ∧
     "stages" ∈ contextSchemaTopLevelFields ∧
     "user_preferences" ∈ contextSchemaTopLevelFields ∧
     "schemaVersion" ∉ contextSchemaTopLevelFields) ∧
    ("project_name" ∈ paperContextExampleFields ∧
     "current_stage" ∈ paperContextExampleFields ∧
     "stages" ∈ paperContextExampleFields ∧
     "user_preferences" ∈ paperContextExampleFields ∧
     "schemaVersion" ∉ paperContextExampleFields) := by
  constructor
  · refine ⟨by decide, by decide, by decide, by decide, by decide⟩
  · refine ⟨by decide, by decide, by decide, by decide, by decide⟩

/-- C2: `jumpTo` is rejected with `InvalidTransition` whenever
`assumeCompleted` holds a stage at or after the target in registry
order, or whenever a stage strictly between the pipeline start and the
target is missing from `assumeCompleted`; in particular listing the
target itself in `assumeCompleted` is rejected. -/
theorem jumpTo_rejects (p : Pipeline) (target : StageId) (a : List StageId)
    (h : (∃ s ∈ a, stageIdx target ≤ stageIdx s) ∨
         (∃ s : StageId, 0 < stageIdx s ∧ stageIdx s < stageIdx target ∧ s ∉ a)) :
    jumpTo p target a = .error .invalidTransition := by
  unfold jumpTo
  rcases h with h | h
  · rw [if_pos h]
  · by_cases h1 : ∃ s ∈ a, stageIdx target ≤ stageIdx s
    · rw [if_pos h1]
    · obtain ⟨s, _, hlt, hmem⟩ := h
      rw [if_neg h1, if_pos ⟨s, mem_stages_order s, hlt, hmem⟩]

/-- C2 witness: the scenario-E analogue — jumping the fresh demo
pipeline to `hypothesis` while listing `hypothesis` itself as
assume-completed is rejected. -/
theorem jumpTo_rejects_witness :
    jumpTo demoInit .hypothesis [.hypothesis] = .error .invalidTransition :=
  jumpTo_rejects demoInit .hypothesis [.hypothesis]
    (Or.inl ⟨.hypothesis, by decide, by decide⟩)

/-- C5: `advance` on a pipeline whose current stage is already
`completed` is rejected with `InvalidTransition` (no new pipeline
state is produced). -/
theorem advance_completed_rejected (p : Pipeline) (out : Output) (r : StageRecord)
    (hr : alookup p.stages p.currentStage = some r)
    (hs : r.status = .completed) :
    advance p out = .error .invalidTransition := by
  unfold advance
  rw [hr]
  simp [hs]

/-- C5 witness: advancing the demo pipeline whose current stage is
completed is rejected. -/
theorem advance_completed_rejected_witness :
    advance demoCompletedPipeline [] = .error .invalidTransition :=
  advance_completed_rejected demoCompletedPipeline [] assumedRecord
    (by decide) (by decide)

/-- C8: saving a pipeline and loading it back by its id returns the
identical pipeline record, and the save replaces only that id's
record, leaving every other id's load result unchanged. -/
theorem save_load_roundtrip (p : Pipeline) (st : Store) :
    load p.id (save p st) = .ok p ∧
    ∀ q, q ≠ p.id → load q (save p st) = load q st := by
  constructor
  · unfold load save
    rw [alookup_aset_self]
  · intro q hq
    unfold load save
    rw [alookup_aset_ne _ _ _ _ hq]

/-- C8 witness: the round trip and the frame condition evaluated on a
concrete store holding the demo pipeline. -/
theorem save_load_roundtrip_witness :
    load "p1" (save demoStored []) = .ok demoStored ∧
    load "zz" (save demoStored []) = load "zz" [] :=
  ⟨(save_load_roundtrip demoStored []).1,
   (save_load_roundtrip demoStored []).2 "zz" (by decide)⟩

/-- C3: when the current stage's output fails validation, `advance`
records the submitted output and the missing-field list on the
current stage's record, marks it `failed`, leaves `currentStage` and
every other stage untouched, and returns the ValidationResult with
the exact missing fields. -/
theorem advance_validation_failure (p : Pipeline) (out : Output) (r : StageRecord)
    (hr : alookup p.stages p.currentStage = some r)
    (hs : r.status = .pending ∨ r.status = .in_progress)
    (hv : (validate p.currentStage out).ok = false) :
    ∃ p', advance p out = .ok (p', validate p.currentStage out) ∧
      p'.currentStage = p.currentStage ∧
      alookup p'.stages p.currentStage =
        some { status := .failed, output := out,
               missing := (validate p.currentStage out).missing,
               error := some "ValidationFailed" } ∧
      ∀ s, s ≠ p.currentStage → alookup p'.stages s = alookup p.stages s := by
  unfold advance
  split
  · next heq =>
    rw [heq] at hr
    cases hr
  next r' heq =>
  rw [heq] at hr
  injection hr with hr
  subst hr
  rw [if_pos hs, if_neg (by simp [hv])]
  refine ⟨_, rfl, rfl, ?_, ?_⟩
  · rw [alookup_mapStages, heq]
    simp
  · intro s hne
    rw [alookup_mapStages]
    cases alookup p.stages s with
    | none => rfl
    | some old => simp [hne]

/-- C3 witness: the scenario-B analogue — advancing the fresh demo
pipeline with an empty output fails validation, reporting exactly the
literature-review stage's required fields as missing and marking the
stage failed in place. -/
theorem advance_validation_failure_witness :
    validate demoInit.currentStage [] =
      { ok := false,
        missing := ["research_gap", "key_papers", "summary"] } ∧
    ∃ p', advance demoInit [] = .ok (p', validate demoInit.currentStage []) ∧
      p'.currentStage = demoInit.currentStage ∧
      alookup p'.stages demoInit.currentStage =
        some { status := .failed, output := [],
               missing := (validate demoInit.currentStage []).missing,
               error := some "ValidationFailed" } ∧
      ∀ s, s ≠ demoInit.currentStage →
        alookup p'.stages s = alookup demoInit.stages s :=
  ⟨by decide,
   advance_validation_failure demoInit [] emptyRecord
     (by decide) (by decide) (by decide)⟩

/-- C4: a jump that is not rejected sets `currentStage` to the target;
every stage of `assumeCompleted` before the target is recorded as
`completed` with empty output; every stage after the target is set to
`pending`; and the target stage's own status becomes `pending`. -/
theorem jumpTo_success (p p' : Pipeline) (target : StageId) (a : List StageId)
    (h : jumpTo p target a = .ok p') :
    p'.currentStage = target ∧
    (∀ s r, s ∈ a → stageIdx s < stageIdx target →
      alookup p.stages s = some r →
      alookup p'.stages s = some assumedRecord) ∧
    (∀ s r, stageIdx target < stageIdx s →
      alookup p.stages s = some r →
      alookup p'.stages s = some { r with status := .pending }) ∧
    (∀ r, alookup p.stages target = some r →
      alookup p'.stages target = some { r with status := .pending }) := by
  unfold jumpTo at h
  split at h
  · simp at h
  · split at h
    · simp at h
    · simp only [Except.ok.injEq] at h
      subst h
      refine ⟨rfl, ?_, ?_, ?_⟩
      · intro s r hmem hlt hr
        simp only [alookup_mapStages, hr, Option.map_some]
        simp [hlt, hmem]
      · intro s r hlt hr
        have h1 : ¬ stageIdx s < stageIdx target := by omega
        simp only [alookup_mapStages, hr, Option.map_some]
        simp [h1]
      · intro r hr
        have h1 : ¬ stageIdx target < stageIdx target := by omega
        simp only [alookup_mapStages, hr, Option.map_some]
        simp

/-- C4 witness: the scenario-C analogue — jumping the fresh demo
pipeline to `hypothesis` with the literature review attested yields
`currentStage = hypothesis`, the literature review completed with
empty output, and the target stage pending. -/
theorem jumpTo_success_witness :
    demoJumped.currentStage = StageId.hypothesis ∧
    alookup demoJumped.stages .literature_review = some assumedRecord ∧
    alookup demoJumped.stages .hypothesis =
      some { emptyRecord with status := Status.pending } := by
  have h : jumpTo demoInit .hypothesis [.literature_review] = .ok demoJumped := by
    rfl
  exact ⟨(jumpTo_success demoInit demoJumped .hypothesis [.literature_review] h).1,
    (jumpTo_success demoInit demoJumped .hypothesis [.literature_review] h).2.1
      .literature_review emptyRecord (by decide) (by decide) (by decide),
    (jumpTo_success demoInit demoJumped .hypothesis [.literature_review] h).2.2.2
      emptyRecord (by decide)⟩

/-- C6: every pipeline reachable through init, advance, jumpTo and
rollbackTo keeps its stage map keyed by exactly the registry's stage
identifiers in registry order, and its current stage is always one of
those keys. -/
theorem reachable_stages_complete (p : Pipeline) (h : Reachable p) :
    p.stages.map Prod.fst = stages_order ∧
    p.currentStage ∈ p.stages.map Prod.fst := by
  have key : p.stages.map Prod.fst = stages_order := by
    induction h with
    | init id name prefs =>
      rfl
    | adv _ hok ih =>
      rw [keys_advance hok]
      exact ih
    | jmp _ hok ih =>
      rw [keys_jumpTo hok]
      exact ih
    | rbk _ hok ih =>
      rw [keys_rollbackTo hok]
      exact ih
  refine ⟨key, ?_⟩
  rw [key]
  exact mem_stages_order p.currentStage

/-- C6 witness: the schema-completeness invariant evaluated on the
freshly created demo pipeline. -/
theorem reachable_stages_complete_witness :
    demoInit.stages.map Prod.fst = stages_order ∧
    demoInit.currentStage ∈ demoInit.stages.map Prod.fst :=
  reachable_stages_complete demoInit (Reachable.init "demo" "demo" [])

theorem keyFree_alookup {q : String} {l : List (String × FTree)}
    (h : keyFree q l = true) : alookup l q = none := by
  induction l with
  | nil => rfl
  | cons e rest ih =>
    obtain ⟨k, v⟩ := e
    by_cases hk : k = q
    · subst hk
      simp [keyFree] at h
    · simp [keyFree, hk] at h
      simp [alookup, hk, ih h]

theorem wfE_cons {n : String} {t : FTree} {rest : List (String × FTree)}
    (h : wfE ((n, t) :: rest) = true) :
    keyFree n rest = true ∧ wfT t = true ∧ wfE rest = true := by
  simp only [wfE, Bool.and_eq_true] at h
  exact ⟨h.1.1, h.1.2, h.2⟩

theorem wfT_dir {es : List (String × FTree)} (h : wfT (.dir es) = true) :
    wfE es = true := by
  simpa [wfT] using h

theorem wfE_alookup_dir {l : List (String × FTree)} {q : String}
    {es : List (String × FTree)}
    (hw : wfE l = true) (h : alookup l q = some (.dir es)) : wfE es = true := by
  induction l with
  | nil => simp [alookup] at h
  | cons e rest ih =>
    obtain ⟨k, v⟩ := e
    obtain ⟨hkf, hwt, hwr⟩ := wfE_cons hw
    by_cases hk : k = q
    · subst hk
      simp [alookup] at h
      subst h
      exact wfT_dir hwt
    · simp [alookup, hk] at h
      exact ih hwr h

theorem lookupPath_none_head {l : List (String × FTree)} {q : String}
    (h : alookup l q = none) (tail : List String) :
    lookupPath l (q :: tail) = none := by
  simp [lookupPath, h]

theorem lookupPath_some_head {l : List (String × FTree)} {q : String} {t0 : FTree}
    (h : alookup l q = some t0) (tail : List String) :
    lookupPath l (q :: tail) = getPath t0 tail := by
  cases tail with
  | nil => simp [lookupPath, getPath, h]
  | cons a b =>
    cases t0 with
    | file c => simp [lookupPath, getPath, h]
    | dir es => simp [lookupPath, getPath, h]

theorem alookup_cons_self {n : String} (t : FTree) (rest : List (String × FTree)) :
    alookup ((n, t) :: rest) n = some t := by
  simp [alookup]

theorem lookupPath_cons_self {n : String} (t : FTree)
    (rest : List (String × FTree)) (tail : List String) :
    lookupPath ((n, t) :: rest) (n :: tail) = getPath t tail :=
  lookupPath_some_head (alookup_cons_self t rest) tail

theorem lookupPath_aset_self {l : List (String × FTree)} {n : String} (v : FTree)
    (tail : List String) :
    lookupPath (aset l n v) (n :: tail) = getPath v tail :=
  lookupPath_some_head (alookup_aset_self l n v) tail

theorem lookupPath_cons_ne {n q : String} (t : FTree)
    (rest : List (String × FTree)) (tail : List String) (h : q ≠ n) :
    lookupPath ((n, t) :: rest) (q :: tail) = lookupPath rest (q :: tail) := by
  simp [lookupPath, alookup, Ne.symm h]

theorem lookupPath_aset_ne {n q : String} (l : List (String × FTree))
    (v : FTree) (tail : List String) (h : q ≠ n) :
    lookupPath (aset l n v) (q :: tail) = lookupPath l (q :: tail) := by
  simp [lookupPath, alookup_aset_ne _ _ _ _ h]

mutual

theorem copyTree_frame (t : FTree) (od : Option FTree) (t2 : FTree)
    (h : copyTree t od = .ok t2) (hw : wfT t = true)
    (p : List String) (c : String)
    (hd : od.bind (fun t0 => getPath t0 p) = some (.file c))
    (hsrc : getPath t p = none) : getPath t2 p = some (.file c) := by
  match t, od with
  | .file c1, some (.dir ds) =>
    simp [copyTree] at h
  | .file c1, some (.file c0) =>
    simp only [copyTree, Except.ok.injEq] at h
    subst h
    cases p with
    | nil => simp [getPath] at hsrc
    | cons q tail => simp [getPath] at hd
  | .file c1, none =>
    simp at hd
  | .dir es, some (.file c0) =>
    simp [copyTree] at h
  | .dir es, some (.dir ds) =>
    rcases hcp : copyDir es ds with e | m
    · simp [copyTree, hcp] at h
    · simp only [copyTree, hcp, Except.ok.injEq] at h
      subst h
      cases p with
      | nil => simp [getPath] at hd
      | cons q tail =>
        have hd2 : lookupPath ds (q :: tail) = some (.file c) := by
          simpa [getPath] using hd
        have hsrc2 : lookupPath es (q :: tail) = none := by
          simpa [getPath] using hsrc
        have := copyDir_frame es ds m hcp (wfT_dir hw) (q :: tail) c hd2 hsrc2
        simpa [getPath] using this
  | .dir es, none =>
    simp at hd

theorem copyDir_frame (src d r : List (String × FTree))
    (h : copyDir src d = .ok r) (hw : wfE src = true)
    (p : List String) (c : String)
    (hd : lookupPath d p = some (.file c)) (hsrc : lookupPath src p = none) :
    lookupPath r p = some (.file c) := by
  match src with
  | [] =>
    simp only [copyDir, Except.ok.injEq] at h
    subst h
    exact hd
  | (n, t) :: rest =>
    rcases hct : copyTree t (alookup d n) with e | t2
    · simp [copyDir, hct] at h
    · have h2 : copyDir rest (aset d n t2) = .ok r := by
        simpa [copyDir, hct] using h
      obtain ⟨hkf, hwt, hwr⟩ := wfE_cons hw
      cases p with
      | nil => simp [lookupPath] at hd
      | cons q tail =>
        by_cases hq : q = n
        · subst hq
          rcases had : alookup d q with - | t0
          · rw [lookupPath_none_head had] at hd
            cases hd
          · have hd2 : getPath t0 tail = some (.file c) := by
              rw [lookupPath_some_head had] at hd
              exact hd
            have hsrc2 : getPath t tail = none := by
              rw [lookupPath_cons_self] at hsrc
              exact hsrc
            have ht2 : getPath t2 tail = some (.file c) := by
              refine copyTree_frame t (alookup d q) t2 hct hwt tail c ?_ hsrc2
              rw [had]
              simpa using hd2
            refine copyDir_frame rest (aset d q t2) r h2 hwr (q :: tail) c ?_ ?_
            · rw [lookupPath_aset_self]
              exact ht2
            · exact lookupPath_none_head (keyFree_alookup hkf) tail
        · refine copyDir_frame rest (aset d n t2) r h2 hwr (q :: tail) c ?_ ?_
          · rw [lookupPath_aset_ne _ _ _ hq]
            exact hd
          · rw [← lookupPath_cons_ne t rest tail hq]
            exact hsrc

end

mutual

theorem copyTree_copies (t : FTree) (od : Option FTree) (t2 : FTree)
    (h : copyTree t od = .ok t2) (hw : wfT t = true)
    (p : List String) (c : String)
    (hsrc : getPath t p = some (.file c)) : getPath t2 p = some (.file c) := by
  match t, od with
  | .file c1, some (.dir ds) =>
    simp [copyTree] at h
  | .file c1, some (.file c0) =>
    simp only [copyTree, Except.ok.injEq] at h
    subst h
    exact hsrc
  | .file c1, none =>
    simp only [copyTree, Except.ok.injEq] at h
    subst h
    exact hsrc
  | .dir es, some (.file c0) =>
    simp [copyTree] at h
  | .dir es, some (.dir ds) =>
    rcases hcp : copyDir es ds with e | m
    · simp [copyTree, hcp] at h
    · simp only [copyTree, hcp, Except.ok.injEq] at h
      subst h
      cases p with
      | nil => simp [getPath] at hsrc
      | cons q tail =>
        have hsrc2 : lookupPath es (q :: tail) = some (.file c) := by
          simpa [getPath] using hsrc
        have := copyDir_copies es ds m hcp (wfT_dir hw) (q :: tail) c hsrc2
        simpa [getPath] using this
  | .dir es, none =>
    rcases hcp : copyDir es [] with e | m
    · simp [copyTree, hcp] at h
    · simp only [copyTree, hcp, Except.ok.injEq] at h
      subst h
      cases p with
      | nil => simp [getPath] at hsrc
      | cons q tail =>
        have hsrc2 : lookupPath es (q :: tail) = some (.file c) := by
          simpa [getPath] using hsrc
        have := copyDir_copies es [] m hcp (wfT_dir hw) (q :: tail) c hsrc2
        simpa [getPath] using this

theorem copyDir_copies (src d r : List (String × FTree))
    (h : copyDir src d = .ok r) (hw : wfE src = true)
    (p : List String) (c : String)
    (hsrc : lookupPath src p = some (.file c)) :
    lookupPath r p = some (.file c) := by
  match src with
  | [] =>
    cases p with
    | nil => simp [lookupPath] at hsrc
    | cons q tail => simp [lookupPath, alookup] at hsrc
  | (n, t) :: rest =>
    rcases hct : copyTree t (alookup d n) with e | t2
    · simp [copyDir, hct] at h
    · have h2 : copyDir rest (aset d n t2) = .ok r := by
        simpa [copyDir, hct] using h
      obtain ⟨hkf, hwt, hwr⟩ := wfE_cons hw
      cases p with
      | nil => simp [lookupPath] at hsrc
      | cons q tail =>
        by_cases hq : q = n
        · subst hq
          rw [lookupPath_cons_self] at hsrc
          have ht2 : getPath t2 tail = some (.file c) :=
            copyTree_copies t (alookup d q) t2 hct hwt tail c hsrc
          refine copyDir_frame rest (aset d q t2) r h2 hwr (q :: tail) c ?_ ?_
          · rw [lookupPath_aset_self]
            exact ht2
          · exact lookupPath_none_head (keyFree_alookup hkf) tail
        · refine copyDir_copies rest (aset d n t2) r h2 hwr (q :: tail) c ?_
          rw [← lookupPath_cons_ne t rest tail hq]
          exact hsrc

end

theorem installGo_frame (src : List (String × FTree)) (ks : List String) :
    ∀ d d' n, installGo src ks d = .ok (d', n) →
    ∀ k, k ∉ ks → alookup d' k = alookup d k := by
  induction ks with
  | nil =>
    intro d d' n h k hk
    simp only [installGo, Except.ok.injEq, Prod.mk.injEq] at h
    rw [← h.1]
  | cons k0 rest ih =>
    intro d d' n h k hk
    simp only [List.mem_cons, not_or] at hk
    obtain ⟨hk0, hkrest⟩ := hk
    simp only [installGo] at h
    split at h
    · exact ih d d' n h k hkrest
    · simp at h
    · split at h
      · simp at h
      · split at h
        · simp at h
        · next m hcp =>
          split at h
          · simp at h
          · next d2 c hgo =>
            simp only [Except.ok.injEq, Prod.mk.injEq] at h
            rw [← h.1]
            rw [ih _ _ _ hgo k hkrest]
            exact alookup_aset_ne _ _ _ _ hk0
      · split at h
        · simp at h
        · next m hcp =>
          split at h
          · simp at h
          · next d2 c hgo =>
            simp only [Except.ok.injEq, Prod.mk.injEq] at h
            rw [← h.1]
            rw [ih _ _ _ hgo k hkrest]
            exact alookup_aset_ne _ _ _ _ hk0

theorem installGo_skip (src : List (String × FTree)) (ks : List String) :
    ∀ d d' n, installGo src ks d = .ok (d', n) →
    ∀ k, k ∈ ks → alookup src k = none → alookup d' k = alookup d k := by
  induction ks with
  | nil =>
    intro d d' n h k hk
    simp at hk
  | cons k0 rest ih =>
    intro d d' n h k hk hnone
    by_cases hkk : k = k0
    · subst hkk
      simp only [installGo] at h
      rw [hnone] at h
      by_cases hmem : k ∈ rest
      · exact ih d d' n h k hmem hnone
      · exact installGo_frame src rest d d' n h k hmem
    · have hmem : k ∈ rest := by
        rcases List.mem_cons.mp hk with h1 | h1
        · exact absurd h1 hkk
        · exact h1
      simp only [installGo] at h
      split at h
      · exact ih d d' n h k hmem hnone
      · simp at h
      · split at h
        · simp at h
        · split at h
          · simp at h
          · next m hcp =>
            split at h
            · simp at h
            · next d2 c hgo =>
              simp only [Except.ok.injEq, Prod.mk.injEq] at h
              rw [← h.1]
              rw [ih _ _ _ hgo k hmem hnone]
              exact alookup_aset_ne _ _ _ _ hkk
        · split at h
          · simp at h
          · next m hcp =>
            split at h
            · simp at h
            · next d2 c hgo =>
              simp only [Except.ok.injEq, Prod.mk.injEq] at h
              rw [← h.1]
              rw [ih _ _ _ hgo k hmem hnone]
              exact alookup_aset_ne _ _ _ _ hkk

theorem installGo_copied (src : List (String × FTree)) (ks : List String) :
    ∀ d d' n, installGo src ks d = .ok (d', n) → ks.Nodup →
    ∀ k es, k ∈ ks → alookup src k = some (.dir es) →
    ∃ ds0 m, copyDir es ds0 = .ok m ∧ alookup d' k = some (.dir m) ∧
      (alookup d k = some (.dir ds0) ∨ (alookup d k = none ∧ ds0 = [])) := by
  induction ks with
  | nil =>
    intro d d' n h hnd k es hk
    simp at hk
  | cons k0 rest ih =>
    intro d d' n h hnd k es hk hsrc
    obtain ⟨hnotin, hndrest⟩ := List.nodup_cons.mp hnd
    by_cases hkk : k = k0
    · subst hkk
      simp only [installGo] at h
      split at h
      · next heq =>
        rw [heq] at hsrc
        cases hsrc
      · next c2 heq =>
        rw [heq] at hsrc
        simp at hsrc
      · next es2 heq =>
        rw [heq] at hsrc
        simp only [Option.some.injEq, FTree.dir.injEq] at hsrc
        subst hsrc
        split at h
        · simp at h
        · next ds heq2 =>
          split at h
          · simp at h
          · next m hcp =>
            split at h
            · simp at h
            · next d2 c hgo =>
              simp only [Except.ok.injEq, Prod.mk.injEq] at h
              refine ⟨ds, m, hcp, ?_, Or.inl heq2⟩
              rw [← h.1]
              rw [installGo_frame src rest _ _ _ hgo k hnotin]
              exact alookup_aset_self _ _ _
        · next heq2 =>
          split at h
          · simp at h
          · next m hcp =>
            split at h
            · simp at h
            · next d2 c hgo =>
              simp only [Except.ok.injEq, Prod.mk.injEq] at h
              refine ⟨[], m, hcp, ?_, Or.inr ⟨heq2, rfl⟩⟩
              rw [← h.1]
              rw [installGo_frame src rest _ _ _ hgo k hnotin]
              exact alookup_aset_self _ _ _
    · have hmem : k ∈ rest := by
        rcases List.mem_cons.mp hk with h1 | h1
        · exact absurd h1 hkk
        · exact h1
      simp only [installGo] at h
      split at h
      · exact ih d d' n h hndrest k es hmem hsrc
      · simp at h
      · split at h
        · simp at h
        · split at h
          · simp at h
          · next m hcp =>
            split at h
            · simp at h
            · next d2 c hgo =>
              simp only [Except.ok.injEq, Prod.mk.injEq] at h
              obtain ⟨ds0, m2, hcp2, hlook, hor⟩ :=
                ih _ _ _ hgo hndrest k es hmem hsrc
              refine ⟨ds0, m2, hcp2, ?_, ?_⟩
              · rw [← h.1]
                exact hlook
              · rw [← alookup_aset_ne d _ k (FTree.dir m) hkk]
                exact hor
        · split at h
          · simp at h
          · next m hcp =>
            split at h
            · simp at h
            · next d2 c hgo =>
              simp only [Except.ok.injEq, Prod.mk.injEq] at h
              obtain ⟨ds0, m2, hcp2, hlook, hor⟩ :=
                ih _ _ _ hgo hndrest k es hmem hsrc
              refine ⟨ds0, m2, hcp2, ?_, ?_⟩
              · rw [← h.1]
                exact hlook
              · rw [← alookup_aset_ne d _ k (FTree.dir m) hkk]
                exact hor

/-- C10: the skill installer is additive — creating the destination
skills directory when absent behaves as installing into an empty one;
entries outside the six fixed skill names are untouched; a skill
missing at the source is skipped without affecting its destination
entry or aborting the run; and within each copied skill, every
destination file with no same-named counterpart in the source tree is
preserved while every source file is copied over (overwriting
same-named files). -/
theorem install_additive (src d d' : List (String × FTree)) (n : Nat)
    (h : install src (some d) = .ok (d', n)) (hw : wfE src = true) :
    install src none = install src (some []) ∧
    (∀ k, k ∉ SKILLS → alookup d' k = alookup d k) ∧
    (∀ k, k ∈ SKILLS → alookup src k = none → alookup d' k = alookup d k) ∧
    (∀ k es p c, k ∈ SKILLS → alookup src k = some (.dir es) →
      lookupPath d (k :: p) = some (.file c) → lookupPath es p = none →
      lookupPath d' (k :: p) = some (.file c)) ∧
    (∀ k es p c, k ∈ SKILLS → alookup src k = some (.dir es) →
      lookupPath es p = some (.file c) →
      lookupPath d' (k :: p) = some (.file c)) := by
  have h' : installGo src SKILLS d = .ok (d', n) := h
  refine ⟨rfl, ?_, ?_, ?_, ?_⟩
  · intro k hk
    exact installGo_frame src SKILLS d d' n h' k hk
  · intro k hk hnone
    exact installGo_skip src SKILLS d d' n h' k hk hnone
  · intro k es p c hk hsrc hd hnone
    obtain ⟨ds0, m, hcp, hlook, hor⟩ :=
      installGo_copied src SKILLS d d' n h' (by decide) k es hk hsrc
    have hwes : wfE es = true := wfE_alookup_dir hw hsrc
    rcases hor with hds | ⟨hdnone, -⟩
    · rw [lookupPath_some_head hds] at hd
      cases p with
      | nil => simp [getPath] at hd
      | cons a b =>
        have hd2 : lookupPath ds0 (a :: b) = some (.file c) := by
          simpa [getPath] using hd
        have hm : lookupPath m (a :: b) = some (.file c) :=
          copyDir_frame es ds0 m hcp hwes (a :: b) c hd2 hnone
        rw [lookupPath_some_head hlook]
        simpa [getPath] using hm
    · rw [lookupPath_none_head hdnone] at hd
      cases hd
  · intro k es p c hk hsrc hcopy
    obtain ⟨ds0, m, hcp, hlook, hor⟩ :=
      installGo_copied src SKILLS d d' n h' (by decide) k es hk hsrc
    have hwes : wfE es = true := wfE_alookup_dir hw hsrc
    cases p with
    | nil => simp [lookupPath] at hcopy
    | cons a b =>
      have hm : lookupPath m (a :: b) = some (.file c) :=
        copyDir_copies es ds0 m hcp hwes (a :: b) c hcopy
      rw [lookupPath_some_head hlook]
      simpa [getPath] using hm

/-- C10 witness: installing the two-skill source fixture over a
populated skills directory keeps the unrelated user file and the
skill-local extra file, leaves the never-copied names and the missing
skills untouched, and overwrites the stale skill file. -/
theorem install_additive_witness :
    install demoSrc none = install demoSrc (some []) ∧
    alookup demoInstalled "scripts" = alookup demoDest "scripts" ∧
    alookup demoInstalled "user-notes.md" = alookup demoDest "user-notes.md" ∧
    alookup demoInstalled "paper-hypothesis" = alookup demoDest "paper-hypothesis" ∧
    lookupPath demoInstalled ["paper-assistant", "local.md"] = some (.file "local") ∧
    lookupPath demoInstalled ["paper-assistant", "SKILL.md"] = some (.file "assistant") := by
  have h : install demoSrc (some demoDest) = .ok (demoInstalled, 2) := by rfl
  have hw : wfE demoSrc = true := by rfl
  obtain ⟨h1, h2, h3, h4, h5⟩ :=
    install_additive demoSrc demoDest demoInstalled 2 h hw
  refine ⟨h1, ?_, ?_, ?_, ?_, ?_⟩
  · exact h2 "scripts" (by decide)
  · exact h2 "user-notes.md" (by decide)
  · exact h3 "paper-hypothesis" (by decide) rfl
  · exact h4 "paper-assistant" _ ["local.md"] "local" (by decide) rfl
      (by rfl) (by rfl)
  · exact h5 "paper-assistant" _ ["SKILL.md"] "assistant" (by decide) rfl
      (by rfl)
